import Mathlib

set_option maxHeartbeats 1000000

/-!
Verification of the window-system core of
`src/Homepage/javascript/scripts.js`:

* the `drag` singleton (threshold handling, callback dispatch, the
  `try/catch` error boundary around target callbacks);
* `WindowHost` (`focus`, `bringToFront`, `create`);
* the `Window` geometry operations `reposition` and `maximize`.

The embedding is shallow: the mutable singleton / host / window state is a
record threaded through step functions; callback invocations performed by the
drag singleton are recorded in an explicit event trace; machine numbers are
modelled by `Int` (the source only adds, subtracts, multiplies and compares
the quantities involved).
-/

/-- A drag target, as seen by the `drag` singleton.  The singleton only ever
invokes `object.dragMove(dx, dy, e)` and `object.dragEnd()`, each of which may
throw; a target is abstracted by which invocations throw.  The effect of an
invocation on the rest of the world is recorded in the event trace, not in the
singleton's state (the source's handlers read no state written by the
callbacks). -/
structure DragTarget where
  moveThrows : Int → Int → Bool
  endThrows : Bool

/-- Observable callback invocations made by the `drag` singleton, in order.
`threw` records whether the invoked callback raised (and was caught by the
handler's `try/catch`). -/
inductive DragEvent where
  | moveCall (dx dy : Int) (threw : Bool)
  | endCall (threw : Bool)
deriving DecidableEq, Repr

/-- State of the `drag` IIFE singleton (`scripts.js` lines 7-41):
`object`, `x`, `y` and `_threshold`.  `threshold` is stored already squared,
as `start` squares it (`_threshold *= _threshold`). -/
structure DragState where
  object : Option DragTarget
  x : Int
  y : Int
  threshold : Int

/-- `drag.start(obj, e, threshold)` (lines 12-19):
`object = obj; _threshold = threshold || 0; _threshold *= _threshold;
x = e.clientX; y = e.clientY`. -/
def dragStart (obj : DragTarget) (ex ey t : Int) : DragState :=
  { object := some obj, x := ex, y := ey, threshold := t * t }

/-- The `mousemove` listener (lines 21-32).  Returns the successor state and
the trace of callback invocations.  If no object is tracked, nothing happens.
Otherwise `dx, dy` are measured from the last recorded point; while a non-zero
(squared) threshold is pending and `dx*dx + dy*dy` is below it, the handler
returns early, before the callback and before `x, y` are updated.  Otherwise
the threshold is cleared to `0`, `dragMove` is invoked inside `try/catch`
(the handler is total: a throwing callback only marks its trace event), and
`x, y` are updated to the event position. -/
def mousemove (s : DragState) (ex ey : Int) : DragState × List DragEvent :=
  match s.object with
  | none => (s, [])
  | some obj =>
    let dx := ex - s.x
    let dy := ey - s.y
    if s.threshold ≠ 0 ∧ dx * dx + dy * dy < s.threshold then
      (s, [])
    else
      ({ s with x := ex, y := ey, threshold := 0 },
       [DragEvent.moveCall dx dy (obj.moveThrows dx dy)])

/-- The `mouseup` listener (lines 34-38): if no object is tracked, nothing
happens; otherwise `dragEnd` is invoked (inside `try/catch`) only when
`_threshold` is `0`, and the tracked object is cleared unconditionally. -/
def mouseup (s : DragState) : DragState × List DragEvent :=
  match s.object with
  | none => (s, [])
  | some obj =>
    ({ s with object := none },
     if s.threshold = 0 then [DragEvent.endCall obj.endThrows] else [])

/-- Run a list of mousemove events from a state, accumulating the trace. -/
def runMoves : DragState → List (Int × Int) → DragState × List DragEvent
  | s, [] => (s, [])
  | s, p :: ps =>
    let r := mousemove s p.1 p.2
    let r2 := runMoves r.1 ps
    (r2.1, r.2 ++ r2.2)

/-- One complete drag session: `start` at `(sx, sy)` with raw threshold `t`,
then a list of mousemoves, then mouseup. -/
def session (obj : DragTarget) (sx sy t : Int) (moves : List (Int × Int)) :
    DragState × List DragEvent :=
  let r := runMoves (dragStart obj sx sy t) moves
  let r2 := mouseup r.1
  (r2.1, r.2 ++ r2.2)

/-- A target that never throws, used for concrete evaluations. -/
def tameTarget : DragTarget :=
  { moveThrows := fun _ _ => false, endThrows := false }

/-- A target whose callbacks always throw, used for concrete evaluations. -/
def throwingTarget : DragTarget :=
  { moveThrows := fun _ _ => true, endThrows := true }

/-- State of a `WindowHost` (`scripts.js` lines 46-99), together with the
per-window DOM state it mutates.  Windows and surfaces (DOM elements) are
identified by natural numbers.  `zIndex w` is the stacking value last written
to window `w`'s `root.style.zIndex` (none if never assigned); `activeClass w`
is whether window `w` currently carries the `active` CSS class (written by
`Window.setActive`); `csWindow e` is the window wrapper attached to surface
`e` (the `windowElement.csWindow` back-reference written by the `Window`
constructor); `nextId` models object identity of freshly constructed
`Window` instances. -/
structure HostState where
  windows : List Nat
  activeWindow : Option Nat
  maxZIndex : Int
  zIndex : Nat → Option Int
  activeClass : Nat → Bool
  csWindow : Nat → Option Nat
  nextId : Nat

/-- A freshly constructed host: no windows, no active window,
`maxZIndex = 1000` (line 53). -/
def initHost : HostState :=
  { windows := [], activeWindow := none, maxZIndex := 1000,
    zIndex := fun _ => none, activeClass := fun _ => false,
    csWindow := fun _ => none, nextId := 0 }

/-- `Window.setActive(active)` (lines 198-200): adds or removes the `active`
class on window `w`. -/
def setActive (s : HostState) (w : Nat) (b : Bool) : HostState :=
  { s with activeClass := fun v => if v = w then b else s.activeClass v }

/-- `WindowHost.bringToFront(windowInstance)` (lines 93-98): returns early on
a missing instance (`none`); otherwise increments `maxZIndex` and assigns it
as the window's stacking value.  (Every constructed `Window` has a `root`, so
the `!windowInstance.root` early-out never fires for managed windows.) -/
def bringToFront (s : HostState) (w : Option Nat) : HostState :=
  match w with
  | none => s
  | some v =>
    { s with maxZIndex := s.maxZIndex + 1,
             zIndex := fun u => if u = v then some (s.maxZIndex + 1)
                                else s.zIndex u }

/-- `WindowHost.focus(w)` (lines 83-90): if there is an active window
different from `w` (`this.activeWindow !== w`), deactivate it; set
`activeWindow = w`; if `w` is a window (non-null), activate it and bring it
to the front. -/
def focus (s : HostState) (w : Option Nat) : HostState :=
  let s1 :=
    match s.activeWindow with
    | some a => if some a ≠ w then setActive s a false else s
    | none => s
  let s2 := { s1 with activeWindow := w }
  match w with
  | some v => bringToFront (setActive s2 v true) (some v)
  | none => s2

/-- `WindowHost.create(windowElement)` (lines 64-76): if the surface already
carries a `csWindow` wrapper, reposition and focus the existing instance and
return it (the reposition touches only the window's geometry, which is
modelled separately below, not host state); otherwise construct a new
`Window` (which attaches itself to the surface), push it onto `windows`,
focus it and return it. -/
def create (s : HostState) (surf : Nat) : HostState × Nat :=
  match s.csWindow surf with
  | some w => (focus s (some w), w)
  | none =>
    let w := s.nextId
    let s1 := { s with nextId := w + 1,
                       csWindow := fun u => if u = surf then some w
                                            else s.csWindow u,
                       windows := s.windows ++ [w] }
    (focus s1 (some w), w)

/-- A sequence of `focus` calls. -/
def runFocus (s : HostState) (calls : List (Option Nat)) : HostState :=
  calls.foldl focus s

/-- The argument of the most recent call carrying a window (`some`). -/
def lastSome : List (Option Nat) → Option Nat
  | [] => none
  | o :: rest =>
    match lastSome rest with
    | some v => some v
    | none => o

/-- `create` iterated `n` further times on the same surface. -/
def createN : HostState → Nat → Nat → HostState
  | s, _, 0 => s
  | s, surf, n + 1 => createN (create s surf).1 surf n

/-- A sequence of `bringToFront` calls. -/
def runBTF (s : HostState) (calls : List (Option Nat)) : HostState :=
  calls.foldl bringToFront s

/-- The stacking values assigned by a sequence of `bringToFront` calls, in
order; calls with a missing instance assign nothing. -/
def btfAssigned : HostState → List (Option Nat) → List Int
  | _, [] => []
  | s, w :: ws =>
    match w with
    | none => btfAssigned s ws
    | some v => (s.maxZIndex + 1) :: btfAssigned (bringToFront s (some v)) ws

/-- A concrete host with window 5 active, for witnesses. -/
def hostA : HostState :=
  { initHost with activeWindow := some 5, activeClass := fun v => v == 5 }

/-- Size of the host's bounding root, as observed through
`getBoundingClientRect()`. -/
structure Rect where
  width : Int
  height : Int
deriving DecidableEq, Repr

/-- A saved window geometry (`this.oldPosition = {x, y, width, height}`,
line 289). -/
structure Geom where
  x : Int
  y : Int
  width : Int
  height : Int
deriving DecidableEq, Repr

/-- Geometry-relevant state of one `Window` (`scripts.js` lines 101-310):
position, size, maximized flag and the saved pre-maximize geometry. -/
structure WinG where
  x : Int
  y : Int
  width : Int
  height : Int
  maximized : Bool
  oldPosition : Option Geom
deriving DecidableEq, Repr

/-- The vertical clamp of `Window.reposition` (lines 252-253):
`if (y < 0) y = 0; else if (y + 30 > hostRect.height) y = hostRect.height - 30`. -/
def clampY (hr : Rect) (y : Int) : Int :=
  if y < 0 then 0 else if y + 30 > hr.height then hr.height - 30 else y

/-- The horizontal clamp of `Window.reposition` (lines 254-255):
`if (x + width < 50) x = 50 - width; else if (x + 30 > hostRect.width)
x = hostRect.width - 30`. -/
def clampX (hr : Rect) (x width : Int) : Int :=
  if x + width < 50 then 50 - width
  else if x + 30 > hr.width then hr.width - 30
  else x

/-- `Window.reposition()` (lines 245-258): a maximized window snaps to fill
the bounding root; otherwise `y` and `x` are clamped as above and `width`,
`height` are left untouched.  (`updatePosition` only pushes the geometry to
the DOM.) -/
def reposition (hr : Rect) (w : WinG) : WinG :=
  if w.maximized then
    { w with x := 0, y := 0, width := hr.width, height := hr.height }
  else
    { w with x := clampX hr w.x w.width, y := clampY hr w.y }

/-- `Window.maximize()` (lines 285-298): toggles `maximized`.
Normal → Maximized saves the current geometry in `oldPosition` and
repositions (snapping to the root).  Maximized → Normal restores all four
saved fields, if a saved geometry exists, and then repositions (re-clamps);
with no saved geometry only the flag is cleared. -/
def maximize (hr : Rect) (w : WinG) : WinG :=
  if !w.maximized then
    reposition hr { w with maximized := true,
                           oldPosition := some ⟨w.x, w.y, w.width, w.height⟩ }
  else
    match w.oldPosition with
    | some g =>
      reposition hr { w with maximized := false, x := g.x, y := g.y,
                             width := g.width, height := g.height }
    | none => { w with maximized := false }

lemma mousemove_below {s : DragState} {obj : DragTarget} {ex ey : Int}
    (ho : s.object = some obj) (ht : s.threshold ≠ 0)
    (hd : (ex - s.x) * (ex - s.x) + (ey - s.y) * (ey - s.y) < s.threshold) :
    mousemove s ex ey = (s, []) := by
  simp [mousemove, ho, ht, hd]

lemma mousemove_dispatch {s : DragState} {obj : DragTarget} {ex ey : Int}
    (ho : s.object = some obj)
    (hd : ¬ ((ex - s.x) * (ex - s.x) + (ey - s.y) * (ey - s.y) < s.threshold)) :
    mousemove s ex ey =
      ({ s with x := ex, y := ey, threshold := 0 },
       [DragEvent.moveCall (ex - s.x) (ey - s.y)
          (obj.moveThrows (ex - s.x) (ey - s.y))]) := by
  simp [mousemove, ho, hd]

lemma mousemove_zero {s : DragState} {obj : DragTarget} {ex ey : Int}
    (ho : s.object = some obj) (ht : s.threshold = 0) :
    mousemove s ex ey =
      ({ s with x := ex, y := ey, threshold := 0 },
       [DragEvent.moveCall (ex - s.x) (ey - s.y)
          (obj.moveThrows (ex - s.x) (ey - s.y))]) := by
  simp [mousemove, ho, ht]

lemma runMoves_below {obj : DragTarget} :
    ∀ (ps : List (Int × Int)) (s : DragState), s.object = some obj →
      s.threshold ≠ 0 →
      (∀ p ∈ ps,
        (p.1 - s.x) * (p.1 - s.x) + (p.2 - s.y) * (p.2 - s.y) < s.threshold) →
      runMoves s ps = (s, []) := by
  intro ps
  induction ps with
  | nil => intro s _ _ _; rfl
  | cons p ps ih =>
    intro s ho ht hall
    have h1 : mousemove s p.1 p.2 = (s, []) :=
      mousemove_below ho ht (hall p (List.mem_cons_self p ps))
    have h2 : runMoves s ps = (s, []) :=
      ih s ho ht (fun q hq => hall q (List.mem_cons_of_mem p hq))
    simp [runMoves, h1, h2]

lemma runMoves_zero {obj : DragTarget} :
    ∀ (ps : List (Int × Int)) (s : DragState), s.object = some obj →
      s.threshold = 0 →
      (runMoves s ps).1.object = some obj ∧
      (runMoves s ps).1.threshold = 0 ∧
      (∀ ev ∈ (runMoves s ps).2, ∃ a b c, ev = DragEvent.moveCall a b c) := by
  intro ps
  induction ps with
  | nil => intro s ho ht; exact ⟨ho, ht, by intro ev h; cases h⟩
  | cons p ps ih =>
    intro s ho ht
    have h1 := @mousemove_zero s obj p.1 p.2 ho ht
    have ih' := ih { s with x := p.1, y := p.2, threshold := 0 } ho rfl
    refine ⟨?_, ?_, ?_⟩
    · simpa [runMoves, h1] using ih'.1
    · simpa [runMoves, h1] using ih'.2.1
    · intro ev hev
      simp only [runMoves, h1] at hev
      rcases List.mem_append.1 hev with h | h
      · rcases List.mem_singleton.1 h with rfl
        exact ⟨_, _, _, rfl⟩
      · exact ih'.2.2 ev h

lemma runMoves_append :
    ∀ (l1 l2 : List (Int × Int)) (s : DragState),
      runMoves s (l1 ++ l2) =
        ((runMoves (runMoves s l1).1 l2).1,
         (runMoves s l1).2 ++ (runMoves (runMoves s l1).1 l2).2) := by
  intro l1
  induction l1 with
  | nil => intro l2 s; simp [runMoves]
  | cons p ps ih =>
    intro l2 s
    simp [runMoves, ih]

/-- C2.  Drag threshold property.  For a session started with raw threshold
`t > 0` at origin `(sx, sy)`: every mousemove before the first one whose
squared distance from the original start point reaches `t*t` invokes no
callback (the session trace is empty over that prefix); the first move whose
squared distance meets or exceeds `t*t` invokes `dragMove` with the full
un-clipped delta measured from the original start point (the trace starts
exactly with that call); and since at least one move was dispatched, the
mouseup at the end of the session invokes `dragEnd` exactly once — everything
between the first dispatched call and the final single `endCall` consists of
`moveCall`s only. -/
theorem drag_threshold_dispatch (obj : DragTarget) (sx sy t : Int)
    (pre : List (Int × Int)) (ek : Int × Int) (rest : List (Int × Int))
    (ht : 0 < t)
    (hpre : ∀ p ∈ pre,
      (p.1 - sx) * (p.1 - sx) + (p.2 - sy) * (p.2 - sy) < t * t)
    (hek : t * t ≤ (ek.1 - sx) * (ek.1 - sx) + (ek.2 - sy) * (ek.2 - sy)) :
    ∃ mid : List DragEvent,
      (session obj sx sy t (pre ++ ek :: rest)).2 =
        DragEvent.moveCall (ek.1 - sx) (ek.2 - sy)
            (obj.moveThrows (ek.1 - sx) (ek.2 - sy)) ::
          (mid ++ [DragEvent.endCall obj.endThrows]) ∧
      ∀ ev ∈ mid, ∃ a b c, ev = DragEvent.moveCall a b c := by
  have ht0 : t * t ≠ 0 := (mul_pos ht ht).ne'
  set s0 : DragState := dragStart obj sx sy t with hs0
  have ho0 : s0.object = some obj := rfl
  have h1 : runMoves s0 pre = (s0, []) := by
    refine runMoves_below pre s0 ho0 ht0 ?_
    intro p hp
    exact hpre p hp
  have hdisp : mousemove s0 ek.1 ek.2 =
      ({ s0 with x := ek.1, y := ek.2, threshold := 0 },
       [DragEvent.moveCall (ek.1 - s0.x) (ek.2 - s0.y)
          (obj.moveThrows (ek.1 - s0.x) (ek.2 - s0.y))]) := by
    refine mousemove_dispatch ho0 ?_
    exact not_lt.2 hek
  set s1 : DragState := { s0 with x := ek.1, y := ek.2, threshold := 0 }
    with hs1
  have hz := @runMoves_zero obj rest s1 rfl rfl
  refine ⟨(runMoves s1 rest).2, ?_, hz.2.2⟩
  have hstep : runMoves s0 (pre ++ ek :: rest) =
      ((runMoves s1 rest).1,
       DragEvent.moveCall (ek.1 - sx) (ek.2 - sy)
           (obj.moveThrows (ek.1 - sx) (ek.2 - sy)) ::
         (runMoves s1 rest).2) := by
    rw [runMoves_append pre (ek :: rest) s0, h1]
    simp only [runMoves, hdisp]
    rfl
  have hup : mouseup (runMoves s1 rest).1 =
      ({ (runMoves s1 rest).1 with object := none },
       [DragEvent.endCall obj.endThrows]) := by
    rcases hz with ⟨hzo, hzt, -⟩
    simp [mouseup, hzo, hzt]
  simp only [session, hstep, hup]
  rfl

/-- Witness for `drag_threshold_dispatch` at a concrete session: threshold 3,
one move below the threshold, then a crossing move, then one trailing move. -/
theorem drag_threshold_dispatch_witness :
    (0 : Int) < 3 ∧
    ∃ mid : List DragEvent,
      (session tameTarget 0 0 3 ([(1, 0)] ++ (3, 0) :: [(4, 0)])).2 =
        DragEvent.moveCall ((3 : Int) - 0) ((0 : Int) - 0)
            (tameTarget.moveThrows ((3 : Int) - 0) ((0 : Int) - 0)) ::
          (mid ++ [DragEvent.endCall tameTarget.endThrows]) ∧
      ∀ ev ∈ mid, ∃ a b c, ev = DragEvent.moveCall a b c :=
  ⟨by decide,
   drag_threshold_dispatch tameTarget 0 0 3 [(1, 0)] (3, 0) [(4, 0)]
     (by decide) (by decide) (by decide)⟩

/-- C3, counterexample.  The claim asserts that for a session with a non-zero
threshold that was never reached, the `mouseup` handler still invokes the
target's `dragEnd` callback.  It does not: at release the guard
`if (!_threshold)` is false (the squared threshold is still the non-zero
pending value), so no callback at all is invoked — here a session with
threshold 10 and no moves produces an empty trace. -/
theorem drag_release_below_threshold_cex :
    (session tameTarget 0 0 10 []).2 = [] := by
  decide

/-- C3, amended.  For every drag session with a non-zero threshold in which
no mousemove ever reached the (squared) threshold, the `mouseup` handler does
NOT invoke the target's `dragEnd` callback (the session trace is empty), and
the active target is still cleared unconditionally. -/
theorem drag_release_below_threshold (obj : DragTarget) (sx sy t : Int)
    (moves : List (Int × Int)) (ht : t ≠ 0)
    (hm : ∀ p ∈ moves,
      (p.1 - sx) * (p.1 - sx) + (p.2 - sy) * (p.2 - sy) < t * t) :
    (session obj sx sy t moves).2 = [] ∧
    (session obj sx sy t moves).1.object = none := by
  have ht0 : t * t ≠ 0 := mul_ne_zero ht ht
  have h1 : runMoves (dragStart obj sx sy t) moves = (dragStart obj sx sy t, []) :=
    runMoves_below moves _ rfl ht0 (by intro p hp; exact hm p hp)
  have hs : session obj sx sy t moves =
      ({ object := none, x := sx, y := sy, threshold := t * t }, []) := by
    simp only [session]
    rw [h1]
    simp [mouseup, dragStart, ht0]
  exact ⟨by rw [hs], by rw [hs]⟩

/-- Witness for `drag_release_below_threshold`: threshold 10, one move of
squared distance 4 < 100 from the origin. -/
theorem drag_release_below_threshold_witness :
    (10 : Int) ≠ 0 ∧
    (session tameTarget 0 0 10 [(2, 0)]).2 = [] ∧
    (session tameTarget 0 0 10 [(2, 0)]).1.object = none :=
  ⟨by decide,
   drag_release_below_threshold tameTarget 0 0 10 [(2, 0)] (by decide)
     (by decide)⟩

/-- C6, counterexample.  The claim asserts that, with an active target, the
last recorded pointer point is updated after every mousemove unconditionally,
including moves swallowed by a pending non-zero threshold.  It is not: after
`start` at `(0,0)` with threshold 10 and a move to `(1,0)` (squared distance
1 < 100), the handler returns before the update, so the recorded `x` is still
`0`, not the current pointer position `1`. -/
theorem drag_lastPoint_cex :
    (mousemove (dragStart tameTarget 0 0 10) 1 0).1.x = 0 ∧
    (mousemove (dragStart tameTarget 0 0 10) 1 0).1.x ≠ 1 := by
  constructor
  · rfl
  · decide

/-- C6, amended.  With an active target, a mousemove that is swallowed by a
pending non-zero threshold (squared distance still below it) leaves the whole
singleton state — in particular the last recorded point — unchanged; every
mousemove that dispatches the move callback (threshold zero, or pending
threshold met) updates the last recorded point to the current pointer
position, regardless of whether the callback throws. -/
theorem drag_lastPoint_update (s : DragState) (obj : DragTarget) (ex ey : Int)
    (ho : s.object = some obj) :
    (s.threshold ≠ 0 →
      (ex - s.x) * (ex - s.x) + (ey - s.y) * (ey - s.y) < s.threshold →
      mousemove s ex ey = (s, [])) ∧
    ((s.threshold = 0 ∨
        s.threshold ≤ (ex - s.x) * (ex - s.x) + (ey - s.y) * (ey - s.y)) →
      (mousemove s ex ey).1.x = ex ∧ (mousemove s ex ey).1.y = ey) := by
  constructor
  · intro ht hd
    exact mousemove_below ho ht hd
  · intro h
    have hd : ¬ ((ex - s.x) * (ex - s.x) + (ey - s.y) * (ey - s.y) < s.threshold) ∨
        s.threshold = 0 := by
      rcases h with h | h
      · exact Or.inr h
      · exact Or.inl (not_lt.2 h)
    rcases hd with hd | hz
    · rw [mousemove_dispatch ho hd]
      exact ⟨rfl, rfl⟩
    · rw [mousemove_zero ho hz]
      exact ⟨rfl, rfl⟩

/-- Witness for `drag_lastPoint_update` at a concrete state: active target,
pending squared threshold 100; the swallowed-move branch at `(2,0)` and the
dispatching branch at `(12,0)`. -/
theorem drag_lastPoint_update_witness :
    (dragStart tameTarget 0 0 10).object = some tameTarget ∧
    mousemove (dragStart tameTarget 0 0 10) 2 0 = (dragStart tameTarget 0 0 10, []) ∧
    (mousemove (dragStart tameTarget 0 0 10) 12 0).1.x = 12 :=
  ⟨rfl,
   (drag_lastPoint_update (dragStart tameTarget 0 0 10) tameTarget 2 0 rfl).1
     (by decide) (by decide),
   ((drag_lastPoint_update (dragStart tameTarget 0 0 10) tameTarget 12 0 rfl).2
     (Or.inr (by decide))).1⟩

/-- C9.  The `try/catch` boundary around target callbacks: with an active
target, the mousemove handler completes and keeps tracking the same target no
matter whether the invoked callback throws; the resulting geometric state
(`x`, `y`, `threshold`) is independent of the target's throwing behaviour
(so subsequent pointer events are handled exactly as for a well-behaved
target); and the mouseup handler clears the active target unconditionally,
in particular even when the target's `dragEnd` callback throws. -/
theorem drag_callback_error_contained (s : DragState) (obj alt : DragTarget)
    (ex ey : Int) (ho : s.object = some obj) :
    (mousemove s ex ey).1.object = some obj ∧
    (mousemove s ex ey).1.x =
      (mousemove { s with object := some alt } ex ey).1.x ∧
    (mousemove s ex ey).1.y =
      (mousemove { s with object := some alt } ex ey).1.y ∧
    (mousemove s ex ey).1.threshold =
      (mousemove { s with object := some alt } ex ey).1.threshold ∧
    (mouseup s).1.object = none := by
  have ho' : ({ s with object := some alt } : DragState).object = some alt := rfl
  by_cases hd : s.threshold ≠ 0 ∧
      (ex - s.x) * (ex - s.x) + (ey - s.y) * (ey - s.y) < s.threshold
  · have h1 : mousemove s ex ey = (s, []) := mousemove_below ho hd.1 hd.2
    have h2 : mousemove { s with object := some alt } ex ey =
        ({ s with object := some alt }, []) :=
      mousemove_below ho' hd.1 hd.2
    refine ⟨by rw [h1]; exact ho, by rw [h1, h2], by rw [h1, h2],
      by rw [h1, h2], ?_⟩
    simp [mouseup, ho]
  · rw [not_and_or, not_ne_iff, not_lt] at hd
    have hd1 : ¬ ((ex - s.x) * (ex - s.x) + (ey - s.y) * (ey - s.y) <
        s.threshold) ∨ s.threshold = 0 := by
      rcases hd with h | h
      · exact Or.inr h
      · exact Or.inl (not_lt.2 h)
    have h1 : (mousemove s ex ey).1 = { s with x := ex, y := ey, threshold := 0 } := by
      rcases hd1 with h | h
      · rw [mousemove_dispatch ho h]
      · rw [mousemove_zero ho h]
    have h2 : (mousemove { s with object := some alt } ex ey).1 =
        { s with object := some alt, x := ex, y := ey, threshold := 0 } := by
      rcases hd1 with h | h
      · rw [mousemove_dispatch ho' h]
      · rw [mousemove_zero ho' h]
    refine ⟨by rw [h1]; exact ho, by rw [h1, h2], by rw [h1, h2],
      by rw [h1, h2], ?_⟩
    simp [mouseup, ho]

/-- Witness for `drag_callback_error_contained`: a state tracking the
always-throwing target, compared against the never-throwing one. -/
theorem drag_callback_error_contained_witness :
    (mousemove (dragStart throwingTarget 0 0 0) 5 7).1.object =
      some throwingTarget ∧
    (mouseup (dragStart throwingTarget 0 0 0)).1.object = none :=
  ⟨(drag_callback_error_contained (dragStart throwingTarget 0 0 0)
      throwingTarget tameTarget 5 7 rfl).1,
   (drag_callback_error_contained (dragStart throwingTarget 0 0 0)
      throwingTarget tameTarget 5 7 rfl).2.2.2.2⟩

lemma focus_activeWindow (s : HostState) (w : Option Nat) :
    (focus s w).activeWindow = w := by
  cases w <;> cases h : s.activeWindow <;>
    simp [focus, setActive, bringToFront, h]

lemma focus_inv (s : HostState) (w : Option Nat)
    (h : ∀ v, s.activeClass v = true ↔ s.activeWindow = some v) :
    ∀ v, (focus s w).activeClass v = true ↔ (focus s w).activeWindow = some v := by
  intro v
  have hv := h v
  rw [focus_activeWindow]
  cases w with
  | none =>
    cases ha : s.activeWindow with
    | none =>
      rw [ha] at hv
      simp only [focus, ha, setActive, bringToFront]
      simp [hv]
    | some a =>
      rw [ha] at hv
      simp only [focus, ha, setActive, bringToFront]
      split_ifs with h1 <;> by_cases hva : v = a <;> simp_all <;> omega
  | some u =>
    cases ha : s.activeWindow with
    | none =>
      rw [ha] at hv
      simp only [focus, ha, setActive, bringToFront]
      by_cases hvu : v = u <;> simp_all <;> omega
    | some a =>
      rw [ha] at hv
      simp only [focus, ha, setActive, bringToFront]
      split_ifs with h1 <;> by_cases hvu : v = u <;> by_cases hva : v = a <;>
        simp_all <;> omega

lemma runFocus_inv (calls : List (Option Nat)) :
    ∀ s : HostState,
      (∀ v, s.activeClass v = true ↔ s.activeWindow = some v) →
      ∀ v, (runFocus s calls).activeClass v = true ↔
           (runFocus s calls).activeWindow = some v := by
  induction calls with
  | nil => intro s h; exact h
  | cons c rest ih =>
    intro s h
    exact ih (focus s c) (focus_inv s c h)

lemma runFocus_activeWindow (calls : List (Option Nat)) :
    ∀ s : HostState,
      (runFocus s calls).activeWindow =
        calls.foldl (fun _ o => o) s.activeWindow := by
  induction calls with
  | nil => intro s; rfl
  | cons c rest ih =>
    intro s
    simp only [runFocus, List.foldl_cons] at *
    rw [ih (focus s c), focus_activeWindow]

lemma foldl_lastSome {v : Nat} :
    ∀ (calls : List (Option Nat)) (d : Option Nat),
      calls.foldl (fun _ o => o) d = some v →
      lastSome calls = some v ∨ (calls = [] ∧ d = some v) := by
  intro calls
  induction calls with
  | nil => intro d h; exact Or.inr ⟨rfl, h⟩
  | cons c rest ih =>
    intro d h
    simp only [List.foldl_cons] at h
    rcases ih c h with h1 | ⟨hr, hc⟩
    · left; simp [lastSome, h1]
    · subst hr; left; simp [lastSome, hc]

lemma focus_csWindow (s : HostState) (w : Option Nat) :
    (focus s w).csWindow = s.csWindow := by
  cases w <;> cases h : s.activeWindow <;>
    simp only [focus, setActive, bringToFront, h] <;>
    first
    | rfl
    | (split <;> rfl)

lemma focus_windows (s : HostState) (w : Option Nat) :
    (focus s w).windows = s.windows := by
  cases w <;> cases h : s.activeWindow <;>
    simp only [focus, setActive, bringToFront, h] <;>
    first
    | rfl
    | (split <;> rfl)

/-- C1.  Single-active invariant of `WindowHost.focus`.  Starting from a
fresh host, after any sequence of `focus` calls: at most one window carries
the `active` class; a window carries it exactly when it is the host's
`activeWindow`; and when an active window exists it is the argument of the
most recent `focus` call with a non-none argument.  Moreover (last conjunct,
for arbitrary host states) focusing anything other than the currently active
window removes that window's `active` class. -/
theorem focus_single_active (calls : List (Option Nat)) :
    (∀ v w, (runFocus initHost calls).activeClass v = true →
      (runFocus initHost calls).activeClass w = true → v = w) ∧
    (∀ v, (runFocus initHost calls).activeWindow = some v →
      lastSome calls = some v) ∧
    (∀ v, (runFocus initHost calls).activeClass v = true →
      (runFocus initHost calls).activeWindow = some v) ∧
    (∀ (s : HostState) (a : Nat) (w : Option Nat),
      s.activeWindow = some a → w ≠ some a →
      (focus s w).activeClass a = false) := by
  have hinit : ∀ v, initHost.activeClass v = true ↔
      initHost.activeWindow = some v := by
    intro v
    simp [initHost]
  have hinv := runFocus_inv calls initHost hinit
  refine ⟨?_, ?_, ?_, ?_⟩
  · intro v w hv hw
    have h1 := (hinv v).1 hv
    have h2 := (hinv w).1 hw
    rw [h1] at h2
    exact Option.some_inj.1 h2
  · intro v hv
    have := runFocus_activeWindow calls initHost
    rw [this] at hv
    rcases foldl_lastSome calls initHost.activeWindow hv with h | ⟨-, hc⟩
    · exact h
    · exact absurd hc (by simp [initHost])
  · intro v hv
    exact (hinv v).1 hv
  · intro s a w ha hw
    cases w with
    | none =>
      simp only [focus, ha]
      rw [if_pos (by simp)]
      simp [setActive]
    | some u =>
      have hau : ¬ a = u := fun e => hw (by rw [e])
      simp only [focus, ha]
      rw [if_pos (show some a ≠ some u by simp [hau])]
      simp [setActive, bringToFront, hau]

/-- Witness for `focus_single_active` at the call sequence
`[focus A, focus none, focus B]` (A = 1, B = 2): B is active at the end and
is the most recently focused non-none argument; and focusing `none` on a host
whose active window is 5 clears 5's `active` class. -/
theorem focus_single_active_witness :
    lastSome [some 1, none, some 2] = some 2 ∧
    (focus hostA none).activeClass 5 = false :=
  ⟨(focus_single_active [some 1, none, some 2]).2.1 2 (by decide),
   (focus_single_active []).2.2.2 hostA 5 none rfl (by decide)⟩

lemma create_fresh (s : HostState) (surf : Nat) (h : s.csWindow surf = none) :
    (create s surf).2 = s.nextId ∧
    (create s surf).1.csWindow surf = some s.nextId ∧
    (create s surf).1.windows.length = s.windows.length + 1 := by
  refine ⟨?_, ?_, ?_⟩
  · simp [create, h]
  · simp only [create, h]
    rw [focus_csWindow]
    simp
  · simp only [create, h]
    rw [focus_windows]
    simp

lemma create_existing (s : HostState) (surf w : Nat)
    (h : s.csWindow surf = some w) :
    (create s surf).2 = w ∧
    (create s surf).1.csWindow surf = some w ∧
    (create s surf).1.windows.length = s.windows.length := by
  refine ⟨?_, ?_, ?_⟩
  · simp [create, h]
  · simp only [create, h]
    rw [focus_csWindow]
    exact h
  · simp only [create, h]
    rw [focus_windows]

lemma createN_existing (surf w : Nat) :
    ∀ (n : Nat) (s : HostState), s.csWindow surf = some w →
      (createN s surf n).csWindow surf = some w ∧
      (createN s surf n).windows.length = s.windows.length := by
  intro n
  induction n with
  | zero => intro s h; exact ⟨h, rfl⟩
  | succ n ih =>
    intro s h
    have h1 := create_existing s surf w h
    have h2 := ih (create s surf).1 h1.2.1
    exact ⟨by simp only [createN]; exact h2.1,
           by simp only [createN]; rw [h2.2, h1.2.2]⟩

/-- C7.  `WindowHost.create` is idempotent.  For a surface not yet wrapped:
the second `create` call with the same surface returns the very same window
instance as the first, the first call grows the managed collection by exactly
one, and after any further number of `create` calls with that surface the
collection still holds exactly one more window than before the first call. -/
theorem create_idempotent (s : HostState) (surf : Nat)
    (h : s.csWindow surf = none) :
    (create (create s surf).1 surf).2 = (create s surf).2 ∧
    (create s surf).1.windows.length = s.windows.length + 1 ∧
    (create (create s surf).1 surf).1.windows.length = s.windows.length + 1 ∧
    (∀ n, (createN (create s surf).1 surf n).windows.length =
      s.windows.length + 1) := by
  obtain ⟨hret, hcs, hlen⟩ := create_fresh s surf h
  have h2 := create_existing (create s surf).1 surf s.nextId hcs
  refine ⟨by rw [h2.1, hret], hlen, by rw [h2.2.2, hlen], ?_⟩
  intro n
  have h3 := createN_existing surf s.nextId n (create s surf).1 hcs
  rw [h3.2, hlen]

/-- Witness for `create_idempotent`: creating surface 7 twice on a fresh
host returns the same window both times, and five further calls leave the
collection at exactly one window. -/
theorem create_idempotent_witness :
    (create (create initHost 7).1 7).2 = (create initHost 7).2 ∧
    (createN (create initHost 7).1 7 5).windows.length = 1 :=
  ⟨(create_idempotent initHost 7 rfl).1,
   (create_idempotent initHost 7 rfl).2.2.2 5⟩

lemma btfAssigned_gt (calls : List (Option Nat)) :
    ∀ (s : HostState) (z : Int), z ∈ btfAssigned s calls → s.maxZIndex < z := by
  induction calls with
  | nil => intro s z hz; cases hz
  | cons c rest ih =>
    intro s z hz
    cases c with
    | none => exact ih s z hz
    | some v =>
      simp only [btfAssigned] at hz
      rcases List.mem_cons.1 hz with h | h
      · omega
      · have := ih (bringToFront s (some v)) z h
        simp only [bringToFront] at this
        omega

lemma runBTF_mono (calls : List (Option Nat)) :
    ∀ s : HostState, s.maxZIndex ≤ (runBTF s calls).maxZIndex := by
  induction calls with
  | nil => intro s; exact le_refl _
  | cons c rest ih =>
    intro s
    have h1 : s.maxZIndex ≤ (bringToFront s c).maxZIndex := by
      cases c <;> simp [bringToFront] <;> omega
    calc s.maxZIndex ≤ (bringToFront s c).maxZIndex := h1
      _ ≤ (runBTF (bringToFront s c) rest).maxZIndex := ih _

/-- C8.  `WindowHost.bringToFront` is strictly monotonic: over any sequence
of `bringToFront` calls from any host state, the stacking values actually
assigned form a strictly increasing list (so any two consecutive assigning
calls assign strictly increasing values, and no value is ever reused), and
the `maxZIndex` counter never decreases. -/
theorem bringToFront_monotonic (s : HostState) (calls : List (Option Nat)) :
    List.Pairwise (· < ·) (btfAssigned s calls) ∧
    (btfAssigned s calls).Nodup ∧
    s.maxZIndex ≤ (runBTF s calls).maxZIndex := by
  have hp : ∀ t : HostState, List.Pairwise (· < ·) (btfAssigned t calls) := by
    induction calls with
    | nil => intro t; exact List.Pairwise.nil
    | cons c rest ih =>
      intro t
      cases c with
      | none => exact ih t
      | some v =>
        refine List.pairwise_cons.2 ⟨?_, ih (bringToFront t (some v))⟩
        intro z hz
        have := btfAssigned_gt rest (bringToFront t (some v)) z hz
        simp only [bringToFront] at this
        omega
  refine ⟨hp s, ?_, runBTF_mono calls s⟩
  exact (hp s).imp (fun hlt => ne_of_lt hlt)

/-- C10.  Re-focusing the already-active window is not a no-op.  If `w` is
the host's active window, `focus(w)` does not deactivate it (its `active`
class is set, never cleared), leaves it active, yet still calls
`bringToFront`: the z-order counter is incremented by exactly one, `w` is
assigned the fresh counter value, and that value is strictly greater than any
stacking value `w` held before (any value bounded by the old counter). -/
theorem focus_refocus_active (s : HostState) (w : Nat)
    (h : s.activeWindow = some w) :
    (focus s (some w)).activeClass w = true ∧
    (focus s (some w)).activeWindow = some w ∧
    (focus s (some w)).maxZIndex = s.maxZIndex + 1 ∧
    (focus s (some w)).zIndex w = some (s.maxZIndex + 1) ∧
    (∀ z : Int, s.zIndex w = some z → z ≤ s.maxZIndex →
      z < s.maxZIndex + 1) := by
  have hs1 : focus s (some w) =
      bringToFront (setActive { s with activeWindow := some w } w true)
        (some w) := by
    simp only [focus, h]
    rw [if_neg (by simp)]
  refine ⟨?_, ?_, ?_, ?_, ?_⟩
  · rw [hs1]; simp [bringToFront, setActive]
  · rw [hs1]; simp [bringToFront, setActive]
  · rw [hs1]; simp [bringToFront, setActive]
  · rw [hs1]; simp [bringToFront, setActive]
  · intro z _ hz; omega

/-- Witness for `focus_refocus_active` on `hostA` (active window 5,
counter 1000): re-focusing 5 bumps the counter to 1001, assigns `zIndex 5 =
1001`, and keeps 5 active. -/
theorem focus_refocus_active_witness :
    (focus hostA (some 5)).activeClass 5 = true ∧
    (focus hostA (some 5)).zIndex 5 = some (hostA.maxZIndex + 1) :=
  ⟨(focus_refocus_active hostA 5 rfl).1,
   (focus_refocus_active hostA 5 rfl).2.2.2.1⟩

/-- C4, counterexample.  The claim asserts that for every non-maximized
window, `maximize(); maximize()` restores the geometry exactly.  It does not:
the restore path re-clamps via `reposition()`.  For a window at
`x = -260, width = 300` in an 800×600 root, `x + width = 40 < 50`, so the
restored `x` is clamped to `50 - 300 = -250 ≠ -260`. -/
theorem maximize_roundtrip_cex :
    (maximize ⟨800, 600⟩ (maximize ⟨800, 600⟩
      ⟨-260, 10, 300, 200, false, none⟩)).x ≠ (-260 : Int) := by
  decide

/-- C4, amended.  For every non-maximized window whose geometry is a fixed
point of the `reposition` clamp for the current root size (which holds for
any geometry that a prior `reposition` against the same root produced and
left untouched), `maximize(); maximize()` with no intervening
geometry-affecting operation restores `x`, `y`, `width`, `height` exactly and
returns the window to the non-maximized state. -/
theorem maximize_roundtrip (hr : Rect) (w : WinG)
    (hm : w.maximized = false)
    (hx : clampX hr w.x w.width = w.x)
    (hy : clampY hr w.y = w.y) :
    (maximize hr (maximize hr w)).x = w.x ∧
    (maximize hr (maximize hr w)).y = w.y ∧
    (maximize hr (maximize hr w)).width = w.width ∧
    (maximize hr (maximize hr w)).height = w.height ∧
    (maximize hr (maximize hr w)).maximized = false := by
  have h1 : maximize hr w =
      { x := 0, y := 0, width := hr.width, height := hr.height,
        maximized := true,
        oldPosition := some ⟨w.x, w.y, w.width, w.height⟩ } := by
    simp [maximize, hm, reposition]
  rw [h1]
  simp [maximize, reposition, hx, hy]

/-- Witness for `maximize_roundtrip`: an already-clamped window at
`(10, 20, 300, 200)` in an 800×600 root round-trips exactly. -/
theorem maximize_roundtrip_witness :
    clampX ⟨800, 600⟩ 10 300 = 10 ∧
    (maximize ⟨800, 600⟩ (maximize ⟨800, 600⟩
      ⟨10, 20, 300, 200, false, none⟩)).x = 10 :=
  ⟨by decide,
   (maximize_roundtrip ⟨800, 600⟩ ⟨10, 20, 300, 200, false, none⟩ rfl
     (by decide) (by decide)).1⟩

/-- C5, counterexample.  The claim asserts that after `reposition()` all
four geometry fields are non-negative, for every prior geometry and root
size.  They are not: for a non-maximized window with `x = -260, width = 300`
in an 800×600 root, the clamp sets `x = 50 - width = -250 < 0`. -/
theorem reposition_nonneg_cex :
    (reposition ⟨800, 600⟩ ⟨-260, 10, 300, 200, false, none⟩).x < 0 := by
  decide

/-- C5, amended.  After `reposition()`: a maximized window's four geometry
fields are all non-negative whenever the bounding root's size is
non-negative; a non-maximized window's `y` is non-negative whenever the root
height is at least 30.  A non-maximized window's `x` is not clamped to
non-negative (only to the loose bounds of the source), and `width` and
`height` are not touched at all. -/
theorem reposition_nonneg (hr : Rect) (w : WinG) :
    (w.maximized = true → 0 ≤ hr.width → 0 ≤ hr.height →
      0 ≤ (reposition hr w).x ∧ 0 ≤ (reposition hr w).y ∧
      0 ≤ (reposition hr w).width ∧ 0 ≤ (reposition hr w).height) ∧
    (w.maximized = false → 30 ≤ hr.height → 0 ≤ (reposition hr w).y) := by
  constructor
  · intro hm hw hh
    simp [reposition, hm, hw, hh]
  · intro hm hh
    simp only [reposition, hm, Bool.false_eq_true, if_false, clampY]
    split_ifs <;> omega

/-- Witness for `reposition_nonneg`: a maximized window in an 800×600 root
(all fields non-negative) and a non-maximized window at `y = 700` in the
same root (`y` clamped to `600 - 30 = 570 ≥ 0`). -/
theorem reposition_nonneg_witness :
    0 ≤ (reposition ⟨800, 600⟩ ⟨5, 5, 100, 100, true, none⟩).x ∧
    0 ≤ (reposition ⟨800, 600⟩ ⟨5, 700, 100, 100, false, none⟩).y :=
  ⟨((reposition_nonneg ⟨800, 600⟩ ⟨5, 5, 100, 100, true, none⟩).1 rfl
      (by decide) (by decide)).1,
   (reposition_nonneg ⟨800, 600⟩ ⟨5, 700, 100, 100, false, none⟩).2 rfl
     (by decide)⟩
